import Mathlib

/-!
Verification of the premium-aggregation pipeline of the NSE bhav-copy
dashboard (`app.py`): `get_premium_traded_data`, `create_advanced_metrics`
and `calculate_gini`, modelled over exact rational arithmetic.
-/

namespace BhavCopy

/-- One contract record of the fetched F&O bhav-copy frame; the five columns
`app.py` touches: option type, total traded volume, settlement price,
board lot size, ticker symbol. -/
structure Row where
  optnTp : String
  ttlTradgVol : ℚ
  sttlmPric : ℚ
  newBrdLotQty : ℚ
  tckrSymb : String
deriving DecidableEq

/-- The fetched data frame: its column names and its rows. -/
structure Frame where
  cols : List String
  rows : List Row
deriving DecidableEq

/-- The columns checked at app.py line 95. -/
def requiredCols : List String :=
  ["OptnTp", "TtlTradgVol", "SttlmPric", "NewBrdLotQty", "TckrSymb"]

/-- `required_cols.issubset(data.columns)` (app.py line 96). -/
def hasRequiredCols (f : Frame) : Bool :=
  requiredCols.all (fun c => f.cols.contains c)

/-- Row predicate of the filter `data['OptnTp'].isin(['PE', 'CE'])`
(app.py line 101). -/
def isOption (r : Row) : Bool :=
  r.optnTp == "PE" || r.optnTp == "CE"

/-- `filtered_data` (app.py line 101). -/
def filterOptions (rows : List Row) : List Row :=
  rows.filter isOption

/-- Per-row premium `TtlTradgVol * SttlmPric * NewBrdLotQty`
(app.py lines 105-107). -/
def premium (r : Row) : ℚ :=
  r.ttlTradgVol * r.sttlmPric * r.newBrdLotQty

/-- Insert a symbol into a strictly ascending list of distinct symbols,
keeping it strictly ascending; models the sorted distinct group keys that
`groupby` (default `sort=True`) produces (app.py line 110). -/
def insertSym (s : String) : List String → List String
  | [] => [s]
  | t :: ts =>
    if s < t then s :: t :: ts
    else if s = t then t :: ts
    else t :: insertSym s ts

/-- The distinct ticker symbols of the rows, in ascending order: the group
keys of `groupby('TckrSymb')` (app.py line 110). -/
def symsSorted (rows : List Row) : List String :=
  rows.foldr (fun r acc => insertSym r.tckrSymb acc) []

/-- `groupby('TckrSymb')['Premium Traded'].sum()` (app.py line 110): one pair
per distinct symbol, keys ascending, value the sum of the row premiums of
that symbol. -/
def groupPremiums (rows : List Row) : List (String × ℚ) :=
  (symsSorted rows).map
    (fun s => (s, ((rows.filter (fun r => r.tckrSymb == s)).map premium).sum))

/-- Descending insert by the premium component (second field). -/
def insertDesc (p : String × ℚ) : List (String × ℚ) → List (String × ℚ)
  | [] => [p]
  | q :: t => if q.2 ≤ p.2 then p :: q :: t else q :: insertDesc p t

/-- `sort_values(by='Premium Traded', ascending=False)` (app.py line 111),
modelled as a deterministic descending insertion sort by premium. pandas'
default `kind='quicksort'` is unstable, so only the descending premium
order is guaranteed by the program; the relative order this model gives to
equal premiums is an artifact of the model and no theorem may rest a
positive conclusion on it. -/
def sortDesc (l : List (String × ℚ)) : List (String × ℚ) :=
  l.foldr insertDesc []

/-- `get_premium_traded_data` (app.py lines 94-114), with the external fetch
already performed: `None` when the frame is empty or lacks a required
column; otherwise the filter / premium / group / sort pipeline, each group
sum finally divided by 10,000,000 (app.py line 112). -/
def get_premium_traded_data (f : Frame) : Option (List (String × ℚ)) :=
  if f.rows.isEmpty || !(hasRequiredCols f) then none
  else some ((sortDesc (groupPremiums (filterOptions f.rows))).map
    (fun p => (p.1, p.2 / 10000000)))

/-- Stable ascending insert for rationals. -/
def insertAsc (x : ℚ) : List ℚ → List ℚ
  | [] => [x]
  | y :: t => if x ≤ y then x :: y :: t else y :: insertAsc x t

/-- Ascending numeric sort, as `np.sort` (app.py line 142). -/
def sortAsc (l : List ℚ) : List ℚ :=
  l.foldr insertAsc []

/-- Cumulative sums starting from accumulator `a`. -/
def cumsumFrom (a : ℚ) : List ℚ → List ℚ
  | [] => []
  | x :: t => (a + x) :: cumsumFrom (a + x) t

/-- `np.cumsum` (app.py line 144). -/
def cumsum (l : List ℚ) : List ℚ :=
  cumsumFrom 0 l

/-- Median of the values: middle of the sorted list, or the average of the
two middle values for an even count (pandas `.median()`, app.py line 132). -/
def median (l : List ℚ) : ℚ :=
  let s := sortAsc l
  let n := l.length
  if n % 2 = 1 then s.getD (n / 2) 0
  else (s.getD (n / 2 - 1) 0 + s.getD (n / 2) 0) / 2

/-- `calculate_gini` (app.py lines 137-145): 0 for an empty array, else
`(n + 1 - 2 * np.sum(cumsum) / cumsum[-1]) / n` when `cumsum[-1] > 0`,
else 0. -/
def calculate_gini (values : List ℚ) : ℚ :=
  if values.length = 0 then 0
  else
    let s := sortAsc values
    let n : ℚ := values.length
    let cs := cumsum s
    let last := cs.getLastD 0
    if 0 < last then (n + 1 - 2 * cs.sum / last) / n else 0

/-- The metrics dictionary built by `create_advanced_metrics`
(app.py lines 129-135). -/
structure Metrics where
  totalPremium : ℚ
  avgPremium : ℚ
  medianPremium : ℚ
  concentration : ℚ
  giniCoef : ℚ
deriving DecidableEq

/-- `create_advanced_metrics` (app.py lines 120-135): the empty dictionary
(modelled as `none`) for an empty frame, otherwise total, mean, median,
top-5 concentration (`data.head(5)`: the FIRST five rows as given) and the
Gini coefficient of the scaled premium column. -/
def create_advanced_metrics (data : List (String × ℚ)) : Option Metrics :=
  if data.isEmpty then none
  else
    let vals := data.map Prod.snd
    let tot := vals.sum
    let top5 := (vals.take 5).sum
    some
      { totalPremium := tot
        avgPremium := tot / data.length
        medianPremium := median vals
        concentration := if 0 < tot then top5 / tot * 100 else 0
        giniCoef := calculate_gini vals }

/-- Modelled from the spec (claim side of C3): concentration over the
min(5, count) LARGEST values, 0 when the total is 0. -/
def concClaimed (data : List (String × ℚ)) : ℚ :=
  let vals := data.map Prod.snd
  let tot := vals.sum
  if tot = 0 then 0
  else ((sortAsc vals).drop (vals.length - 5)).sum / tot * 100

/-- Modelled from the spec (claim side of C4): the spec's written Gini
formula `(n + 1 - 2 * sum(cumulative_sums)) / (n * last_cumulative_sum)`,
0 when n = 0 or the final cumulative sum is 0. -/
def giniClaimed (values : List ℚ) : ℚ :=
  if values.length = 0 then 0
  else
    let s := sortAsc values
    let cs := cumsum s
    let last := cs.getLastD 0
    if last = 0 then 0
    else ((values.length : ℚ) + 1 - 2 * cs.sum) / (values.length * last)

/-- The amended Gini formula (spec side of the corrected C4): only the
`2 * sum(cumulative_sums)` term is divided by the last cumulative sum (the
total of the sorted values), the whole bracket then divided by n; 0 when
n = 0 or the total is not positive. -/
def giniAmended (values : List ℚ) : ℚ :=
  if values = [] then 0
  else
    let s := sortAsc values
    let tot := s.sum
    if 0 < tot then ((values.length : ℚ) + 1 - 2 * (cumsum s).sum / tot) / values.length
    else 0

/-- The amended concentration formula (spec side of the corrected C3): the
sum of the first min(5, count) values in the order the caller supplies them,
divided by the total, times 100; 0 when the total is not positive. -/
def concAmended (data : List (String × ℚ)) : ℚ :=
  let vals := data.map Prod.snd
  let tot := vals.sum
  if 0 < tot then (vals.take 5).sum / tot * 100 else 0

/-! ### Lemmas about the grouping step -/

theorem mem_insertSym (z s : String) (l : List String) :
    z ∈ insertSym s l ↔ z = s ∨ z ∈ l := by
  induction l with
  | nil => simp [insertSym]
  | cons t ts ih =>
    simp only [insertSym]
    split
    · simp [List.mem_cons]
    · split
      next heq =>
        subst heq
        simp [List.mem_cons]

      · simp only [List.mem_cons, ih]
        tauto

theorem mem_symsSorted (s : String) (rows : List Row) :
    s ∈ symsSorted rows ↔ s ∈ rows.map Row.tckrSymb := by
  induction rows with
  | nil => simp [symsSorted]
  | cons r rs ih =>
    show s ∈ insertSym r.tckrSymb (symsSorted rs) ↔ _
    rw [mem_insertSym, ih]
    simp

theorem mem_groupPremiums {rows : List Row} {p : String × ℚ} :
    p ∈ groupPremiums rows ↔
      p.1 ∈ rows.map Row.tckrSymb ∧
      p.2 = ((rows.filter (fun r => r.tckrSymb == p.1)).map premium).sum := by
  unfold groupPremiums
  rw [List.mem_map]
  constructor
  · rintro ⟨s, hs, rfl⟩
    exact ⟨(mem_symsSorted s rows).mp hs, rfl⟩
  · rintro ⟨h1, h2⟩
    refine ⟨p.1, (mem_symsSorted _ rows).mpr h1, ?_⟩
    obtain ⟨p1, p2⟩ := p
    simpa using h2.symm

/-! ### Lemmas about the descending sort step -/

theorem mem_insertDesc {z p : String × ℚ} {l : List (String × ℚ)} :
    z ∈ insertDesc p l ↔ z = p ∨ z ∈ l := by
  induction l with
  | nil => simp [insertDesc]
  | cons q t ih =>
    simp only [insertDesc]
    split
    · simp [List.mem_cons]
    · simp only [List.mem_cons, ih]
      tauto

theorem mem_sortDesc {z : String × ℚ} {l : List (String × ℚ)} :
    z ∈ sortDesc l ↔ z ∈ l := by
  induction l with
  | nil => simp [sortDesc]
  | cons p t ih =>
    show z ∈ insertDesc p (sortDesc t) ↔ _
    rw [mem_insertDesc, ih]
    simp

theorem insertDesc_sorted {p : String × ℚ} {l : List (String × ℚ)}
    (hl : l.Pairwise (fun a b => b.2 ≤ a.2)) :
    (insertDesc p l).Pairwise (fun a b => b.2 ≤ a.2) := by
  induction l with
  | nil => simp [insertDesc]
  | cons q t ih =>
    obtain ⟨hq, ht⟩ := List.pairwise_cons.mp hl
    simp only [insertDesc]
    split
    next hle =>
      refine List.pairwise_cons.mpr ⟨?_, hl⟩
      intro z hz
      rcases List.mem_cons.mp hz with rfl | hz'
      · exact hle
      · exact le_trans (hq z hz') hle
    next hgt =>
      push_neg at hgt
      refine List.pairwise_cons.mpr ⟨?_, ih ht⟩
      intro z hz
      rcases mem_insertDesc.mp hz with rfl | hz'
      · exact le_of_lt hgt
      · exact hq z hz'

theorem sortDesc_sorted (l : List (String × ℚ)) :
    (sortDesc l).Pairwise (fun a b => b.2 ≤ a.2) := by
  induction l with
  | nil => simp [sortDesc]
  | cons p t ih =>
    show (insertDesc p (sortDesc t)).Pairwise (fun a b => b.2 ≤ a.2)
    exact insertDesc_sorted ih

/-! ### Characterisation of the aggregation pipeline -/

theorem gptd_some {f : Frame} {out : List (String × ℚ)}
    (h : get_premium_traded_data f = some out) :
    out = (sortDesc (groupPremiums (filterOptions f.rows))).map
      (fun p => (p.1, p.2 / 10000000)) := by
  unfold get_premium_traded_data at h
  split at h
  · exact absurd h (by simp)
  · exact (Option.some.inj h).symm

theorem out_symbols {f : Frame} {out : List (String × ℚ)}
    (h : get_premium_traded_data f = some out) (sym : String) :
    sym ∈ out.map Prod.fst ↔ sym ∈ (filterOptions f.rows).map Row.tckrSymb := by
  rw [gptd_some h]
  rw [List.map_map]
  constructor
  · intro hs
    obtain ⟨p, hp, rfl⟩ := List.mem_map.mp hs
    exact (mem_groupPremiums.mp (mem_sortDesc.mp hp)).1
  · intro hs
    refine List.mem_map.mpr ⟨(sym,
      (((filterOptions f.rows).filter (fun r => r.tckrSymb == sym)).map premium).sum), ?_, rfl⟩
    exact mem_sortDesc.mpr (mem_groupPremiums.mpr ⟨hs, rfl⟩)

theorem out_values {f : Frame} {out : List (String × ℚ)}
    (h : get_premium_traded_data f = some out) {p : String × ℚ} (hp : p ∈ out) :
    p.2 = (((filterOptions f.rows).filter
      (fun r => r.tckrSymb == p.1)).map premium).sum / 10000000 := by
  rw [gptd_some h] at hp
  obtain ⟨q, hq, rfl⟩ := List.mem_map.mp hp
  have hv := (mem_groupPremiums.mp (mem_sortDesc.mp hq)).2
  simpa using congrArg (· / (10000000 : ℚ)) hv

/-! ### Concrete inputs used in scenarios and counterexamples -/

/-- The three-row scenario frame of the spec: two AAA option rows and one
BBB option row. -/
def scenFrame : Frame :=
  { cols := requiredCols,
    rows := [⟨"PE", 100, 50, 10, "AAA"⟩, ⟨"CE", 200, 50, 10, "AAA"⟩,
             ⟨"PE", 10, 100, 10, "BBB"⟩] }

/-- The scenario output: AAA 0.015 crore, BBB 0.001 crore. -/
def scenOut : List (String × ℚ) := [("AAA", 3/200), ("BBB", 1/1000)]

/-- Two equal-premium rows whose first occurrence order (BBB before AAA)
differs from alphabetical order. -/
def tieFrame : Frame :=
  { cols := requiredCols,
    rows := [⟨"PE", 1, 1, 1, "BBB"⟩, ⟨"PE", 1, 1, 1, "AAA"⟩] }

/-- A frame whose single option row has a negative settlement price, hence a
negative computed premium. -/
def negFrame : Frame :=
  { cols := requiredCols, rows := [⟨"PE", 1, -5, 1, "NEG"⟩] }

/-- Six aggregated pairs in ascending premium order: the five smallest come
first, so `head(5)` does not pick the five largest. -/
def unsortedData : List (String × ℚ) :=
  [("A", 1), ("B", 1), ("C", 1), ("D", 1), ("E", 1), ("F", 95)]

/-! ### Claims -/

theorem gptd_cond_iff (f : Frame) :
    (f.rows.isEmpty || !(hasRequiredCols f)) = true ↔
      (f.rows = [] ∨ ¬ ∀ c ∈ requiredCols, c ∈ f.cols) := by
  simp [hasRequiredCols, List.isEmpty_iff, List.all_eq_true]

/-- C5: `get_premium_traded_data` yields no aggregated result exactly when
the fetched frame has no rows or lacks one of the five required columns;
otherwise it produces an aggregated result. -/
theorem c5_data_unavailable (f : Frame) :
    get_premium_traded_data f = none ↔
      (f.rows = [] ∨ ¬ ∀ c ∈ requiredCols, c ∈ f.cols) := by
  by_cases hc : (f.rows.isEmpty || !(hasRequiredCols f)) = true
  · simp only [get_premium_traded_data, if_pos hc]
    simp only [true_iff]
    exact (gptd_cond_iff f).mp hc
  · simp only [get_premium_traded_data, if_neg hc]
    simp only [reduceCtorEq, false_iff]
    exact fun hr => hc ((gptd_cond_iff f).mpr hr)

/-- C6 (counterexample): on an empty aggregated sequence
`create_advanced_metrics` returns the empty dictionary (`none`), not a
dictionary of zeroed metrics. -/
theorem c6_counterexample :
    create_advanced_metrics ([] : List (String × ℚ)) = none ∧
      (none : Option Metrics) ≠ some ⟨0, 0, 0, 0, 0⟩ :=
  ⟨rfl, by simp⟩

/-- C6 (amended): `create_advanced_metrics` returns no metrics at all
exactly when the aggregated sequence is empty; the division-by-zero hazard
is avoided by returning early, not by zeroing the metrics. -/
theorem c6_empty_means_no_metrics (data : List (String × ℚ)) :
    create_advanced_metrics data = none ↔ data = [] := by
  by_cases h : data = []
  · subst h
    simp [create_advanced_metrics]
  · simp [create_advanced_metrics, List.isEmpty_iff, h]

/-- C1: every aggregated output symbol is a symbol of some retained PE/CE
row and vice versa, every output premium is the sum of
`volume * price * lot` over the retained rows of that exact symbol divided
by 10,000,000, and the spec's three-row scenario yields AAA = 0.015 and
BBB = 0.001 in the order [AAA, BBB]. -/
theorem c1_filter_group_scale :
    (∀ (f : Frame) (out : List (String × ℚ)), get_premium_traded_data f = some out →
      (∀ sym, sym ∈ out.map Prod.fst ↔ sym ∈ (filterOptions f.rows).map Row.tckrSymb) ∧
      ∀ p ∈ out, p.2 = (((filterOptions f.rows).filter
        (fun r => r.tckrSymb == p.1)).map premium).sum / 10000000) ∧
    get_premium_traded_data scenFrame = some scenOut := by
  refine ⟨fun f out h => ⟨out_symbols h, fun p hp => out_values h hp⟩, ?_⟩
  with_unfolding_all rfl

/-- C1 (witness): the universal part of C1 applied to the concrete scenario
frame, at symbol AAA and at the BBB output pair. -/
theorem c1_witness :
    ("AAA" ∈ scenOut.map Prod.fst ↔
      "AAA" ∈ (filterOptions scenFrame.rows).map Row.tckrSymb) ∧
    (1 : ℚ)/1000 = (((filterOptions scenFrame.rows).filter
      (fun r => r.tckrSymb == "BBB")).map premium).sum / 10000000 := by
  refine ⟨(c1_filter_group_scale.1 scenFrame scenOut c1_filter_group_scale.2).1 "AAA", ?_⟩
  exact (c1_filter_group_scale.1 scenFrame scenOut c1_filter_group_scale.2).2
    ("BBB", 1/1000) (List.mem_cons_of_mem _ (List.mem_cons_self _ _))

/-- C7 (counterexample): the pipeline has no negative-premium guard: the
NEG row computes premium -5 yet is aggregated, with no warning and no
exclusion, so the output holds its (negative) scaled premium. -/
theorem c7_counterexample :
    premium ⟨"PE", 1, -5, 1, "NEG"⟩ < 0 ∧
      get_premium_traded_data negFrame = some [("NEG", -5/10000000)] := by
  constructor
  · norm_num [premium]
  · with_unfolding_all rfl

/-- C7 (amended): a retained row with negative computed premium is NOT
excluded: its symbol still appears in the output and the group sum it
belongs to is the plain sum over all retained rows of that symbol
(including the negative one), scaled. -/
theorem c7_negative_rows_included :
    ∀ (f : Frame) (out : List (String × ℚ)) (r : Row),
      get_premium_traded_data f = some out → r ∈ f.rows →
      (r.optnTp = "PE" ∨ r.optnTp = "CE") → premium r < 0 →
      r.tckrSymb ∈ out.map Prod.fst ∧
      ∀ p ∈ out, p.1 = r.tckrSymb →
        p.2 = (((filterOptions f.rows).filter
          (fun x => x.tckrSymb == r.tckrSymb)).map premium).sum / 10000000 := by
  intro f out r h hr hopt _hneg
  have hrf : r ∈ filterOptions f.rows := by
    refine List.mem_filter.mpr ⟨hr, ?_⟩
    rcases hopt with ho | ho <;> simp [isOption, ho]
  constructor
  · exact (out_symbols h r.tckrSymb).mpr (List.mem_map_of_mem _ hrf)
  · intro p hp hps
    have := out_values h hp
    rwa [hps] at this

/-- C7 (witness): the amended C7 applied to the one-negative-row frame. -/
theorem c7_witness :
    "NEG" ∈ ([("NEG", (-5 : ℚ)/10000000)].map Prod.fst) ∧
    (-5 : ℚ)/10000000 = (((filterOptions negFrame.rows).filter
      (fun x => x.tckrSymb == "NEG")).map premium).sum / 10000000 := by
  have h := c7_negative_rows_included negFrame [("NEG", (-5 : ℚ)/10000000)]
    ⟨"PE", 1, -5, 1, "NEG"⟩ (by with_unfolding_all rfl) (List.mem_cons_self _ _)
    (Or.inl rfl) (by norm_num [premium])
  exact ⟨h.1, h.2 ("NEG", (-5 : ℚ)/10000000) (List.mem_cons_self _ _) rfl⟩

/-- C2 (counterexample): in `tieFrame` the symbol BBB occurs first in the
input, AAA second, and both groups tie at premium 1; the output nonetheless
lists AAA before BBB (the alphabetical group order), not the
first-occurrence order [BBB, AAA]. -/
theorem c2_counterexample :
    tieFrame.rows.map Row.tckrSymb = ["BBB", "AAA"] ∧
      get_premium_traded_data tieFrame =
        some [("AAA", 1/10000000), ("BBB", 1/10000000)] :=
  ⟨rfl, by with_unfolding_all rfl⟩

/-- C2 (amended): the aggregated output is sorted descending (non-strictly)
by scaled premium. The order among groups with equal scaled premium is not
part of the claim: the program does not fix it (pandas' default quicksort
is unstable), and the counterexample shows it is in particular not input
first-occurrence order. -/
theorem c2_sorted_descending :
    ∀ (f : Frame) (out : List (String × ℚ)), get_premium_traded_data f = some out →
      out.Pairwise (fun a b => b.2 ≤ a.2) := by
  intro f out h
  rw [gptd_some h, List.pairwise_map]
  refine (sortDesc_sorted (groupPremiums (filterOptions f.rows))).imp ?_
  intro a b hab
  exact div_le_div_of_nonneg_right hab (by norm_num)

/-- C2 (witness): the amended C2 applied to the tie frame. -/
theorem c2_witness :
    ([("AAA", (1 : ℚ)/10000000), ("BBB", (1 : ℚ)/10000000)]).Pairwise
      (fun a b => b.2 ≤ a.2) :=
  c2_sorted_descending tieFrame _ (by with_unfolding_all rfl)

/-! ### Lemmas about the ascending sort and cumulative sums -/

theorem insertAsc_length (x : ℚ) (l : List ℚ) :
    (insertAsc x l).length = l.length + 1 := by
  induction l with
  | nil => rfl
  | cons y t ih =>
    simp only [insertAsc]
    split
    · rfl
    · simp [ih]

theorem insertAsc_sum (x : ℚ) (l : List ℚ) : (insertAsc x l).sum = x + l.sum := by
  induction l with
  | nil => simp [insertAsc]
  | cons y t ih =>
    simp only [insertAsc]
    split
    · simp
    · simp only [List.sum_cons, ih]
      ring

theorem mem_insertAsc {y x : ℚ} {l : List ℚ} :
    y ∈ insertAsc x l ↔ y = x ∨ y ∈ l := by
  induction l with
  | nil => simp [insertAsc]
  | cons z t ih =>
    simp only [insertAsc]
    split
    · simp [List.mem_cons]
    · simp only [List.mem_cons, ih]
      tauto

theorem insertAsc_pairwise {x : ℚ} {l : List ℚ} (h : l.Pairwise (· ≤ ·)) :
    (insertAsc x l).Pairwise (· ≤ ·) := by
  induction l with
  | nil => simp [insertAsc]
  | cons y t ih =>
    obtain ⟨hy, ht⟩ := List.pairwise_cons.mp h
    simp only [insertAsc]
    split
    next hxy =>
      refine List.pairwise_cons.mpr ⟨?_, h⟩
      intro z hz
      rcases List.mem_cons.mp hz with rfl | hz'
      · exact hxy
      · exact le_trans hxy (hy z hz')
    next hxy =>
      have hyx : y ≤ x := le_of_not_le hxy
      refine List.pairwise_cons.mpr ⟨?_, ih ht⟩
      intro z hz
      rcases mem_insertAsc.mp hz with rfl | hz'
      · exact hyx
      · exact hy z hz'

theorem sortAsc_length (l : List ℚ) : (sortAsc l).length = l.length := by
  induction l with
  | nil => rfl
  | cons x t ih =>
    show (insertAsc x (sortAsc t)).length = _
    rw [insertAsc_length, ih, List.length_cons]

theorem sortAsc_sum (l : List ℚ) : (sortAsc l).sum = l.sum := by
  induction l with
  | nil => rfl
  | cons x t ih =>
    show (insertAsc x (sortAsc t)).sum = _
    rw [insertAsc_sum, ih, List.sum_cons]

theorem mem_sortAsc {y : ℚ} {l : List ℚ} : y ∈ sortAsc l ↔ y ∈ l := by
  induction l with
  | nil => simp [sortAsc]
  | cons x t ih =>
    show y ∈ insertAsc x (sortAsc t) ↔ _
    rw [mem_insertAsc, ih]
    simp

theorem sortAsc_pairwise (l : List ℚ) : (sortAsc l).Pairwise (· ≤ ·) := by
  induction l with
  | nil => simp [sortAsc]
  | cons x t ih => exact insertAsc_pairwise ih

theorem cumsumFrom_getLastD (l : List ℚ) (hl : l ≠ []) :
    ∀ a d : ℚ, (cumsumFrom a l).getLastD d = a + l.sum := by
  induction l with
  | nil => exact absurd rfl hl
  | cons x t ih =>
    intro a d
    by_cases ht : t = []
    · subst ht
      simp [cumsumFrom]
    · show ((a + x) :: cumsumFrom (a + x) t).getLastD d = _
      rw [List.getLastD_cons, ih ht (a + x) (a + x), List.sum_cons]
      ring

theorem cumsumFrom_sum (l : List ℚ) :
    ∀ a : ℚ, (cumsumFrom a l).sum = l.length * a + (cumsum l).sum := by
  induction l with
  | nil => simp [cumsumFrom, cumsum]
  | cons x t ih =>
    intro a
    simp only [cumsum, cumsumFrom, List.sum_cons, List.length_cons, zero_add]
    rw [ih (a + x), ih x]
    push_cast
    ring

theorem cumsum_cons_sum (x : ℚ) (t : List ℚ) :
    (cumsum (x :: t)).sum = ((t.length : ℚ) + 1) * x + (cumsum t).sum := by
  simp only [cumsum, cumsumFrom, List.sum_cons, zero_add]
  rw [cumsumFrom_sum t x]
  simp only [cumsum]
  ring

theorem le_sum_of_forall_le (t : List ℚ) (x : ℚ) (h : ∀ y ∈ t, x ≤ y) :
    (t.length : ℚ) * x ≤ t.sum := by
  induction t with
  | nil => simp
  | cons y t ih =>
    simp only [List.length_cons, List.sum_cons]
    push_cast
    have h1 := h y (List.mem_cons_self _ _)
    have h2 := ih (fun z hz => h z (List.mem_cons_of_mem _ hz))
    nlinarith

theorem two_cumsum_sum_le (l : List ℚ) (h : l.Pairwise (· ≤ ·)) :
    2 * (cumsum l).sum ≤ ((l.length : ℚ) + 1) * l.sum := by
  induction l with
  | nil => simp [cumsum, cumsumFrom]
  | cons x t ih =>
    obtain ⟨hx, ht⟩ := List.pairwise_cons.mp h
    have h1 := ih ht
    have h2 := le_sum_of_forall_le t x hx
    rw [cumsum_cons_sum]
    simp only [List.length_cons, List.sum_cons]
    push_cast
    nlinarith

theorem cumsum_sum_ge (l : List ℚ) (h : ∀ y ∈ l, 0 ≤ y) :
    l.sum ≤ (cumsum l).sum := by
  induction l with
  | nil => simp [cumsum, cumsumFrom]
  | cons x t ih =>
    have h1 := ih (fun z hz => h z (List.mem_cons_of_mem _ hz))
    have h2 := h x (List.mem_cons_self _ _)
    have h3 : (0 : ℚ) ≤ (t.length : ℚ) := Nat.cast_nonneg _
    rw [cumsum_cons_sum]
    simp only [List.sum_cons]
    nlinarith

/-- Closed form of `calculate_gini`: the branch on `cumsum[-1] > 0` in terms
of the sum of the sorted values. -/
theorem calculate_gini_eq (values : List ℚ) :
    calculate_gini values =
      if 0 < (sortAsc values).sum then
        ((values.length : ℚ) + 1
          - 2 * (cumsum (sortAsc values)).sum / (sortAsc values).sum) / values.length
      else 0 := by
  by_cases hne : values.length = 0
  · have h0 : values = [] := List.length_eq_zero.mp hne
    subst h0
    simp [calculate_gini, sortAsc, cumsum, cumsumFrom]
  · have hsne : sortAsc values ≠ [] := by
      intro hh
      apply hne
      rw [← sortAsc_length values, hh, List.length_nil]
    have hlast : (cumsum (sortAsc values)).getLastD 0 = (sortAsc values).sum := by
      rw [cumsum, cumsumFrom_getLastD _ hsne 0 0, zero_add]
    simp only [calculate_gini]
    rw [if_neg hne, hlast]

/-- For non-negative inputs the Gini value of `calculate_gini` lies in
[0, 1]. -/
theorem gini_bounds (values : List ℚ) (h : ∀ v ∈ values, 0 ≤ v) :
    0 ≤ calculate_gini values ∧ calculate_gini values ≤ 1 := by
  rw [calculate_gini_eq]
  by_cases hpos : 0 < (sortAsc values).sum
  · rw [if_pos hpos]
    have hsorted := sortAsc_pairwise values
    have hmem : ∀ v ∈ sortAsc values, 0 ≤ v := fun v hv => h v (mem_sortAsc.mp hv)
    have h2S : 2 * (cumsum (sortAsc values)).sum ≤
        ((values.length : ℚ) + 1) * (sortAsc values).sum := by
      have := two_cumsum_sum_le (sortAsc values) hsorted
      rwa [sortAsc_length values] at this
    have hSge := cumsum_sum_ge (sortAsc values) hmem
    have hn : (0 : ℚ) < values.length := by
      have hv : values ≠ [] := by
        intro hh
        subst hh
        simp [sortAsc, cumsum, cumsumFrom] at hpos
      exact_mod_cast Nat.pos_of_ne_zero (fun hh => hv (List.length_eq_zero.mp hh))
    constructor
    · apply div_nonneg _ (le_of_lt hn)
      have hq : 2 * (cumsum (sortAsc values)).sum / (sortAsc values).sum
          ≤ (values.length : ℚ) + 1 := by
        rw [div_le_iff₀ hpos]
        linarith
      linarith
    · rw [div_le_one hn]
      have h1 : 1 ≤ 2 * (cumsum (sortAsc values)).sum / (sortAsc values).sum := by
        rw [one_le_div hpos]
        linarith
      linarith
  · rw [if_neg hpos]
    norm_num

/-! ### Characterisation of `create_advanced_metrics` -/

theorem cam_some {data : List (String × ℚ)} {m : Metrics}
    (h : create_advanced_metrics data = some m) :
    data ≠ [] ∧
    m.concentration = (if 0 < (data.map Prod.snd).sum then
      ((data.map Prod.snd).take 5).sum / (data.map Prod.snd).sum * 100 else 0) ∧
    m.giniCoef = calculate_gini (data.map Prod.snd) ∧
    m.totalPremium = (data.map Prod.snd).sum := by
  unfold create_advanced_metrics at h
  split at h
  · exact absurd h (by simp)
  next hne =>
    have hd : data ≠ [] := by simpa [List.isEmpty_iff] using hne
    rw [Option.some.injEq] at h
    subst h
    exact ⟨hd, rfl, rfl, rfl⟩

/-- C3 (counterexample): on six pairs supplied in ascending order the code
concentration is 5 (first five values over the total), while the claimed
top-5-largest formula gives 99. -/
theorem c3_counterexample :
    (create_advanced_metrics unsortedData).map Metrics.concentration = some 5 ∧
    concClaimed unsortedData = 99 ∧ (5 : ℚ) ≠ 99 :=
  ⟨by with_unfolding_all rfl, by with_unfolding_all rfl, by norm_num⟩

/-- C3 (amended): the concentration ratio of `create_advanced_metrics` is
the sum of the first min(5, count) values in the order the caller supplies
them, divided by the total, times 100, and 0 when the total is not
positive. -/
theorem c3_concentration_first_five :
    ∀ (data : List (String × ℚ)) (m : Metrics),
      create_advanced_metrics data = some m → m.concentration = concAmended data := by
  intro data m h
  rw [(cam_some h).2.1]
  rfl

/-- C3 (witness): the amended C3 applied to the six unsorted pairs. -/
theorem c3_witness :
    Metrics.concentration ⟨100, 50/3, 1, 5, 47/60⟩ = concAmended unsortedData :=
  c3_concentration_first_five unsortedData ⟨100, 50/3, 1, 5, 47/60⟩
    (by with_unfolding_all rfl)

/-- C4 (counterexample): on the two-element array [1, 3] the code computes
Gini 1/4 (the standard formula), while the spec formula as written — with
the whole bracket divided by `n * last_cumulative_sum` — gives -7/8. -/
theorem c4_counterexample :
    calculate_gini [1, 3] = 1/4 ∧ giniClaimed [1, 3] = -7/8 ∧ (1 : ℚ)/4 ≠ -7/8 :=
  ⟨by with_unfolding_all rfl, by with_unfolding_all rfl, by norm_num⟩

/-- C4 (amended): `calculate_gini` equals
`(n + 1 - 2 * sum(cumulative_sums) / last_cumulative_sum) / n` — only the
`2 * sum(cumulative_sums)` term is divided by the last cumulative sum (the
total of the sorted values) — and is 0 when n = 0 or the final cumulative
sum is not positive. -/
theorem c4_gini_formula :
    ∀ values : List ℚ, calculate_gini values = giniAmended values := by
  intro values
  rw [calculate_gini_eq]
  by_cases h0 : values = []
  · subst h0
    simp [giniAmended, sortAsc]
  · simp only [giniAmended, if_neg h0]

/-- C8: whenever all aggregated premiums are non-negative, the
concentration ratio lies in [0, 100] and the Gini coefficient lies in
[0, 1]. -/
theorem c8_metric_bounds :
    ∀ (data : List (String × ℚ)) (m : Metrics),
      create_advanced_metrics data = some m → (∀ p ∈ data, 0 ≤ p.2) →
      0 ≤ m.concentration ∧ m.concentration ≤ 100 ∧
      0 ≤ m.giniCoef ∧ m.giniCoef ≤ 1 := by
  intro data m h hnn
  obtain ⟨-, hconc, hgini, -⟩ := cam_some h
  have hvals : ∀ v ∈ data.map Prod.snd, 0 ≤ v := by
    intro v hv
    obtain ⟨p, hp, rfl⟩ := List.mem_map.mp hv
    exact hnn p hp
  refine ⟨?_, ?_, ?_, ?_⟩
  · rw [hconc]
    by_cases htot : 0 < (data.map Prod.snd).sum
    · rw [if_pos htot]
      have h5 : 0 ≤ ((data.map Prod.snd).take 5).sum :=
        List.sum_nonneg (fun v hv => hvals v (List.mem_of_mem_take hv))
      positivity
    · rw [if_neg htot]
  · rw [hconc]
    by_cases htot : 0 < (data.map Prod.snd).sum
    · rw [if_pos htot]
      have hsplit := List.sum_take_add_sum_drop (data.map Prod.snd) 5
      have hdrop : 0 ≤ ((data.map Prod.snd).drop 5).sum :=
        List.sum_nonneg (fun v hv => hvals v (List.mem_of_mem_drop hv))
      rw [div_mul_eq_mul_div, div_le_iff₀ htot]
      linarith
    · rw [if_neg htot]
      norm_num
  · rw [hgini]
    exact (gini_bounds _ hvals).1
  · rw [hgini]
    exact (gini_bounds _ hvals).2

/-- C8 (witness): the bounds applied to the two-pair set
[(X, 2), (Y, 1)], whose metrics are total 3, mean 3/2, median 3/2,
concentration 100, Gini 1/6. -/
theorem c8_witness :
    0 ≤ Metrics.concentration ⟨3, 3/2, 3/2, 100, 1/6⟩ ∧
    Metrics.concentration ⟨3, 3/2, 3/2, 100, 1/6⟩ ≤ 100 ∧
    0 ≤ Metrics.giniCoef ⟨3, 3/2, 3/2, 100, 1/6⟩ ∧
    Metrics.giniCoef ⟨3, 3/2, 3/2, 100, 1/6⟩ ≤ 1 :=
  c8_metric_bounds [("X", 2), ("Y", 1)] ⟨3, 3/2, 3/2, 100, 1/6⟩
    (by with_unfolding_all rfl)
    (by
      intro p hp
      rcases List.mem_cons.mp hp with rfl | hp'
      · norm_num
      · rcases List.mem_singleton.mp hp' with rfl
        norm_num)

/-- C10: when there are at most five aggregated symbols, all premiums are
non-negative and the total is positive, the top-5 window covers the whole
set and the concentration ratio is exactly 100. -/
theorem c10_small_sets_full_concentration :
    ∀ (data : List (String × ℚ)) (m : Metrics),
      create_advanced_metrics data = some m → data.length ≤ 5 →
      (∀ p ∈ data, 0 ≤ p.2) → 0 < (data.map Prod.snd).sum →
      m.concentration = 100 := by
  intro data m h hlen _hnn htot
  rw [(cam_some h).2.1, if_pos htot,
    List.take_of_length_le (by simpa using hlen),
    div_self (ne_of_gt htot), one_mul]

/-- C10 (witness): the single pair (X, 2) has concentration 100. -/
theorem c10_witness : Metrics.concentration ⟨2, 2, 2, 100, 0⟩ = 100 :=
  c10_small_sets_full_concentration [("X", 2)] ⟨2, 2, 2, 100, 0⟩
    (by with_unfolding_all rfl) (by norm_num)
    (by
      intro p hp
      rcases List.mem_singleton.mp hp with rfl
      norm_num)
    (by norm_num)

/-! ### Replicate computations for the extreme Gini scenarios -/

theorem insertAsc_replicate_self (k : ℕ) (c : ℚ) :
    insertAsc c (List.replicate k c) = List.replicate (k + 1) c := by
  cases k with
  | zero => rfl
  | succ j =>
    simp [List.replicate_succ, insertAsc]

theorem sortAsc_replicate (n : ℕ) (c : ℚ) :
    sortAsc (List.replicate n c) = List.replicate n c := by
  induction n with
  | zero => rfl
  | succ k ih =>
    rw [List.replicate_succ]
    show insertAsc c (sortAsc (List.replicate k c)) = _
    rw [ih, insertAsc_replicate_self, List.replicate_succ]

theorem insertAsc_pos_replicate (k : ℕ) {P : ℚ} (hP : 0 < P) :
    insertAsc P (List.replicate k 0) = List.replicate k 0 ++ [P] := by
  induction k with
  | zero => rfl
  | succ j ih =>
    simp only [List.replicate_succ, insertAsc]
    rw [if_neg (not_le.mpr hP), ih, List.cons_append]

theorem cumsumFrom_replicate_zero (k : ℕ) :
    ∀ a : ℚ, cumsumFrom a (List.replicate k 0) = List.replicate k a := by
  induction k with
  | zero => intro a; rfl
  | succ j ih =>
    intro a
    simp only [List.replicate_succ, cumsumFrom, add_zero]
    rw [ih a]

theorem cumsumFrom_append (l m : List ℚ) :
    ∀ a : ℚ, cumsumFrom a (l ++ m) = cumsumFrom a l ++ cumsumFrom (a + l.sum) m := by
  induction l with
  | nil => intro a; simp [cumsumFrom]
  | cons x t ih =>
    intro a
    simp only [List.cons_append, cumsumFrom, List.sum_cons, List.append_eq]
    rw [ih (a + x), add_assoc]

theorem cumsumFrom_replicate_sum (c : ℚ) (k : ℕ) :
    ∀ a : ℚ, (cumsumFrom a (List.replicate k c)).sum = k * a + c * k * (k + 1) / 2 := by
  induction k with
  | zero => intro a; simp [cumsumFrom]
  | succ j ih =>
    intro a
    simp only [List.replicate_succ, cumsumFrom, List.sum_cons]
    rw [ih (a + c)]
    push_cast
    ring

/-- C9: with n equal positive premiums the Gini coefficient is exactly 0;
when one of n symbols carries the whole positive premium P and the other
n - 1 premiums are 0, the Gini coefficient is (n-1)/n (stated with
n = others.length + 1) and the concentration ratio is 100. -/
theorem c9_gini_extremes :
    (∀ (n : ℕ) (c : ℚ), 1 ≤ n → 0 < c → calculate_gini (List.replicate n c) = 0) ∧
    (∀ (sym : String) (others : List String) (P : ℚ), 0 < P →
      calculate_gini (((sym, P) :: others.map (fun s => (s, (0 : ℚ)))).map Prod.snd)
        = (others.length : ℚ) / (others.length + 1) ∧
      ∀ m : Metrics,
        create_advanced_metrics ((sym, P) :: others.map (fun s => (s, (0 : ℚ)))) = some m →
        m.concentration = 100) := by
  constructor
  · intro n c hn hc
    rw [calculate_gini_eq, sortAsc_replicate]
    have hn' : (0 : ℚ) < n := by exact_mod_cast hn
    have hsum : (List.replicate n c).sum = (n : ℚ) * c := by
      rw [List.sum_replicate, nsmul_eq_mul]
    rw [hsum, if_pos (by positivity), List.length_replicate]
    have hS : (cumsum (List.replicate n c)).sum = c * n * (n + 1) / 2 := by
      rw [cumsum, cumsumFrom_replicate_sum c n 0]
      ring
    rw [hS]
    have hcne : c ≠ 0 := ne_of_gt hc
    have hnne : (n : ℚ) ≠ 0 := ne_of_gt hn'
    have key : 2 * (c * n * ((n : ℚ) + 1) / 2) / ((n : ℚ) * c) = (n : ℚ) + 1 := by
      field_simp
      ring
    rw [key]
    simp
  · intro sym others P hP
    have hmap : (others.map (fun s => (s, (0 : ℚ)))).map Prod.snd
        = List.replicate others.length 0 := by
      rw [List.map_map]
      exact List.map_const' others 0
    have hvals : ((sym, P) :: others.map (fun s => (s, (0 : ℚ)))).map Prod.snd
        = P :: List.replicate others.length 0 := by
      rw [List.map_cons, hmap]
    constructor
    · rw [hvals, calculate_gini_eq]
      have hsort : sortAsc (P :: List.replicate others.length 0)
          = List.replicate others.length 0 ++ [P] := by
        show insertAsc P (sortAsc (List.replicate others.length 0)) = _
        rw [sortAsc_replicate]
        exact insertAsc_pos_replicate _ hP
      rw [hsort]
      have hsum : (List.replicate others.length 0 ++ [P]).sum = P := by simp
      rw [hsum, if_pos hP]
      have hS : (cumsum (List.replicate others.length 0 ++ [P])).sum = P := by
        rw [cumsum, cumsumFrom_append, cumsumFrom_replicate_zero]
        simp [cumsumFrom]
      rw [hS, List.length_cons, List.length_replicate, mul_div_assoc,
        div_self (ne_of_gt hP)]
      push_cast
      ring
    · intro m hm
      obtain ⟨-, hconc, -, -⟩ := cam_some hm
      rw [hconc, hvals]
      have htake : ((P :: List.replicate others.length 0).take 5).sum = P := by
        show (P :: (List.replicate others.length 0).take 4).sum = P
        rw [List.take_replicate]
        simp
      have hsum2 : (P :: List.replicate others.length 0).sum = P := by simp
      rw [hsum2, htake, if_pos hP, div_self (ne_of_gt hP), one_mul]

/-- C9 (witness): three equal premiums give Gini 0; one of three symbols
holding premium 4 gives Gini 2/3 and concentration 100. -/
theorem c9_witness :
    calculate_gini (List.replicate 3 (2 : ℚ)) = 0 ∧
    calculate_gini ([("A", (4 : ℚ)), ("B", 0), ("C", 0)].map Prod.snd) = (2 : ℚ)/3 ∧
    Metrics.concentration ⟨4, 4/3, 0, 100, 2/3⟩ = 100 := by
  refine ⟨c9_gini_extremes.1 3 2 (by norm_num) (by norm_num), ?_, ?_⟩
  · have h := (c9_gini_extremes.2 "A" ["B", "C"] 4 (by norm_num)).1
    norm_num at h
    convert h using 2
  · exact (c9_gini_extremes.2 "A" ["B", "C"] 4 (by norm_num)).2
      ⟨4, 4/3, 0, 100, 2/3⟩ (by with_unfolding_all rfl)

end BhavCopy
